import Mathlib

set_option maxHeartbeats 1000000
set_option maxRecDepth 100000

/-!
Verification of the batched, fault-tolerant IMAP mailbox-operation engine
found in `imap_count.py`, `imap_delete.py`, `imap_delete2.py` and
`folder_list.py`.

Shallow embedding.  Protocol calls are driven by explicit oracles that give
each call's outcome (status strings, raised exception classes); each modelled
run returns the list of protocol events it issued, in order, so temporal
claims become statements about these traces.  Python integers are `Nat`,
Python lists are `List`, exceptions are explicit outcome constructors.
-/

/-! ## Batch planner

Both read and mutate pipelines chunk the identifier list with Python slicing:
`[ids[i:i + C] for i in range(0, len(ids), C)]` in `imap_count.py` (line 186)
and the equivalent loop `for i in range(0, total_emails, chunk_size)` with
`chunk = mail_ids[i:i + chunk_size]` in `imap_delete2.py` (lines 99-100).
-/

/-- Recursion core for `pyrangeFrom`: the fuel only bounds the number of
steps (each step advances `i` by the positive step `s + 1`, so `stop - i`
steps always suffice). -/
def pyrangeFromAux (s stop : Nat) : Nat → Nat → List Nat
  | 0, _ => []
  | fuel + 1, i =>
    if i < stop then i :: pyrangeFromAux s stop fuel (i + (s + 1)) else []

/-- Elements of Python `range(i, stop, s + 1)`: the indices visited by the
chunking loops (the step is always the positive chunk size). -/
def pyrangeFrom (s stop i : Nat) : List Nat :=
  pyrangeFromAux s stop (stop - i) i

theorem pyrangeFromAux_congr (s stop : Nat) :
    ∀ f1 f2 i, stop - i ≤ f1 → stop - i ≤ f2 →
      pyrangeFromAux s stop f1 i = pyrangeFromAux s stop f2 i := by
  intro f1
  induction f1 with
  | zero =>
    intro f2 i h1 h2
    cases f2 with
    | zero => rfl
    | succ f2 =>
      simp only [pyrangeFromAux]
      rw [if_neg (by omega)]
  | succ f1 ih =>
    intro f2 i h1 h2
    cases f2 with
    | zero =>
      simp only [pyrangeFromAux]
      rw [if_neg (by omega)]
    | succ f2 =>
      simp only [pyrangeFromAux]
      by_cases h : i < stop
      · rw [if_pos h, if_pos h, ih f2 (i + (s + 1)) (by omega) (by omega)]
      · rw [if_neg h, if_neg h]

/-- The Python slicing chunker.  A chunk size of `0` corresponds to `range`
with step `0`, which raises `ValueError` in Python; it is modelled as `[]`
and never used (every call site passes a fixed positive chunk size). -/
def chunkSlices (C : Nat) (l : List α) : List (List α) :=
  match C with
  | 0 => []
  | s + 1 => (pyrangeFrom s l.length 0).map (fun i => (l.drop i).take (s + 1))

theorem pyrangeFrom_of_ge (s stop i : Nat) (h : stop ≤ i) :
    pyrangeFrom s stop i = [] := by
  rw [pyrangeFrom]
  have h0 : stop - i = 0 := by omega
  rw [h0]
  rfl

theorem pyrangeFrom_of_lt (s stop i : Nat) (h : i < stop) :
    pyrangeFrom s stop i = i :: pyrangeFrom s stop (i + (s + 1)) := by
  rw [pyrangeFrom, pyrangeFrom]
  obtain ⟨k, hk⟩ : ∃ k, stop - i = k + 1 := ⟨stop - i - 1, by omega⟩
  rw [hk]
  simp only [pyrangeFromAux, if_pos h]
  rw [pyrangeFromAux_congr s stop k (stop - (i + (s + 1))) (i + (s + 1))
    (by omega) (by omega)]

theorem chunk_join_aux (s : Nat) (l : List α) :
    ∀ n i, l.length - i ≤ n →
      ((pyrangeFrom s l.length i).map (fun j => (l.drop j).take (s + 1))).flatten
        = l.drop i := by
  intro n
  induction n with
  | zero =>
    intro i hi
    have hle : l.length ≤ i := by omega
    rw [pyrangeFrom_of_ge s _ i hle]
    simp [List.drop_eq_nil_of_le hle]
  | succ n ih =>
    intro i hi
    by_cases h : i < l.length
    · rw [pyrangeFrom_of_lt s _ i h]
      simp only [List.map_cons, List.flatten_cons]
      rw [ih (i + (s + 1)) (by omega)]
      have hdd : l.drop (i + (s + 1)) = (l.drop i).drop (s + 1) := by
        rw [List.drop_drop]
      rw [hdd, List.take_append_drop]
    · have hle : l.length ≤ i := by omega
      rw [pyrangeFrom_of_ge s _ i hle]
      simp [List.drop_eq_nil_of_le hle]

theorem chunk_count_aux (s stop : Nat) :
    ∀ n i, stop - i ≤ n →
      (pyrangeFrom s stop i).length = (stop - i + s) / (s + 1) := by
  intro n
  induction n with
  | zero =>
    intro i hi
    have hle : stop ≤ i := by omega
    rw [pyrangeFrom_of_ge s stop i hle]
    have h0 : stop - i = 0 := by omega
    rw [h0]
    simp [Nat.div_eq_of_lt (by omega : s < s + 1)]
  | succ n ih =>
    intro i hi
    by_cases h : i < stop
    · rw [pyrangeFrom_of_lt s stop i h]
      simp only [List.length_cons]
      rw [ih (i + (s + 1)) (by omega)]
      -- with m := stop - i ≥ 1:  (m - (s+1) + s) / (s+1) + 1 = (m + s) / (s+1)
      have hm : 1 ≤ stop - i := by omega
      have key : (stop - i + s) / (s + 1) = (stop - i - 1) / (s + 1) + 1 := by
        have : stop - i + s = (stop - i - 1) + (s + 1) := by omega
        rw [this, Nat.add_div_right _ (by omega : 0 < s + 1)]
      by_cases hbig : s + 1 ≤ stop - i
      · have h1 : stop - (i + (s + 1)) + s = stop - i - 1 := by omega
        rw [h1, key]
      · have h1 : stop - (i + (s + 1)) + s = s := by omega
        rw [h1, key]
        have h2 : (stop - i - 1) / (s + 1) = 0 := Nat.div_eq_of_lt (by omega)
        have h3 : s / (s + 1) = 0 := Nat.div_eq_of_lt (by omega)
        rw [h2, h3]
    · have hle : stop ≤ i := by omega
      rw [pyrangeFrom_of_ge s stop i hle]
      have h0 : stop - i = 0 := by omega
      rw [h0]
      simp [Nat.div_eq_of_lt (by omega : s < s + 1)]

theorem pyrangeFrom_ne_nil (s stop i : Nat) (h : i < stop) :
    pyrangeFrom s stop i ≠ [] := by
  rw [pyrangeFrom_of_lt s stop i h]
  simp

theorem chunk_dropLast_aux (s : Nat) (l : List α) :
    ∀ n i, l.length - i ≤ n →
      ∀ c ∈ ((pyrangeFrom s l.length i).map
              (fun j => (l.drop j).take (s + 1))).dropLast,
        c.length = s + 1 := by
  intro n
  induction n with
  | zero =>
    intro i hi c hc
    have hle : l.length ≤ i := by omega
    rw [pyrangeFrom_of_ge s _ i hle] at hc
    simp at hc
  | succ n ih =>
    intro i hi c hc
    by_cases h : i < l.length
    · rw [pyrangeFrom_of_lt s _ i h] at hc
      simp only [List.map_cons] at hc
      by_cases hrest : i + (s + 1) < l.length
      · have hne : pyrangeFrom s l.length (i + (s + 1)) ≠ [] :=
          pyrangeFrom_ne_nil s _ _ hrest
        have hmapne :
            (pyrangeFrom s l.length (i + (s + 1))).map
              (fun j => (l.drop j).take (s + 1)) ≠ [] := by
          simpa using hne
        rw [List.dropLast_cons_of_ne_nil hmapne] at hc
        rcases List.mem_cons.mp hc with hc | hc
        · subst hc
          have hlen : (l.drop i).length = l.length - i := List.length_drop i l
          rw [List.length_take, hlen]
          omega
        · exact ih (i + (s + 1)) (by omega) c hc
      · have hnil : pyrangeFrom s l.length (i + (s + 1)) = [] :=
          pyrangeFrom_of_ge s _ _ (by omega)
        rw [hnil] at hc
        simp at hc
    · have hle : l.length ≤ i := by omega
      rw [pyrangeFrom_of_ge s _ i hle] at hc
      simp at hc

theorem chunk_getLast_aux (s : Nat) (l : List α) :
    ∀ n i, l.length - i ≤ n → i < l.length → i % (s + 1) = 0 →
      ∀ c, ((pyrangeFrom s l.length i).map
              (fun j => (l.drop j).take (s + 1))).getLast? = some c →
        c.length = if l.length % (s + 1) = 0 then s + 1 else l.length % (s + 1) := by
  intro n
  induction n with
  | zero =>
    intro i hi h
    omega
  | succ n ih =>
    intro i hi h hmod c hc
    rw [pyrangeFrom_of_lt s _ i h] at hc
    simp only [List.map_cons] at hc
    by_cases hrest : i + (s + 1) < l.length
    · rw [pyrangeFrom_of_lt s _ _ hrest, List.map_cons,
        List.getLast?_cons_cons] at hc
      have hmod2 : (i + (s + 1)) % (s + 1) = 0 := by
        simp [Nat.add_mod, hmod]
      apply ih (i + (s + 1)) (by omega) hrest hmod2 c
      rw [pyrangeFrom_of_lt s _ _ hrest, List.map_cons]
      exact hc
    · have hnil : pyrangeFrom s l.length (i + (s + 1)) = [] :=
        pyrangeFrom_of_ge s _ _ (by omega)
      rw [hnil] at hc
      simp only [List.map_nil, List.getLast?_singleton, Option.some.injEq] at hc
      subst hc
      rw [List.length_take, List.length_drop]
      have hmodkey : l.length % (s + 1) = (l.length - i) % (s + 1) := by
        conv_lhs => rw [show l.length = i + (l.length - i) from by omega]
        rw [Nat.add_mod, hmod, Nat.zero_add, Nat.mod_mod_of_dvd _ dvd_rfl]
      by_cases hfull : l.length - i = s + 1
      · have hz : l.length % (s + 1) = 0 := by
          rw [hmodkey, hfull, Nat.mod_self]
        rw [hz, if_pos rfl]
        omega
      · have hlt : l.length - i < s + 1 := by omega
        have hmr : l.length % (s + 1) = l.length - i := by
          rw [hmodkey, Nat.mod_eq_of_lt hlt]
        rw [hmr, if_neg (by omega)]
        omega

/-- Claim C3: for every identifier sequence of length L and every chunk size
C >= 1, Python slicing chunking yields ceil(L/C) = (L + C - 1) / C chunks;
every chunk except possibly the last has exactly C elements, the last has
L mod C elements when L mod C > 0, and the concatenation of the chunks in
production order is the original sequence. -/
theorem claim_C3_chunking (C : Nat) (l : List α) (hC : 1 ≤ C) :
    (chunkSlices C l).length = (l.length + C - 1) / C ∧
    (∀ c ∈ (chunkSlices C l).dropLast, c.length = C) ∧
    (l.length % C ≠ 0 →
      ∀ c, (chunkSlices C l).getLast? = some c → c.length = l.length % C) ∧
    (chunkSlices C l).flatten = l := by
  obtain ⟨s, rfl⟩ : ∃ s, C = s + 1 := ⟨C - 1, by omega⟩
  refine ⟨?_, ?_, ?_, ?_⟩
  · show ((pyrangeFrom s l.length 0).map _).length = _
    rw [List.length_map]
    rw [chunk_count_aux s l.length l.length 0 (by omega)]
    have he : l.length - 0 + s = l.length + (s + 1) - 1 := by omega
    rw [he]
  · intro c hc
    exact chunk_dropLast_aux s l l.length 0 (by omega) c hc
  · intro hmod c hc
    have hpos : 0 < l.length := by
      by_contra hz
      have h0 : l.length = 0 := by omega
      rw [h0] at hmod
      simp at hmod
    have := chunk_getLast_aux s l l.length 0 (by omega) hpos (Nat.zero_mod _) c hc
    rw [if_neg hmod] at this
    exact this
  · have := chunk_join_aux s l l.length 0 (by omega)
    simpa using this

/-- Witness for C3 at chunk size 3 over the 8-element sequence 0..7
(chunks of sizes 3, 3, 2). -/
theorem claim_C3_chunking_witness :
    (chunkSlices 3 (List.range 8)).length = ((List.range 8).length + 3 - 1) / 3 ∧
    (∀ c ∈ (chunkSlices 3 (List.range 8)).dropLast, c.length = 3) ∧
    ((List.range 8).length % 3 ≠ 0 →
      ∀ c, (chunkSlices 3 (List.range 8)).getLast? = some c →
        c.length = (List.range 8).length % 3) ∧
    (chunkSlices 3 (List.range 8)).flatten = List.range 8 :=
  claim_C3_chunking 3 (List.range 8) (by omega)

/-! ## Mutate pipeline

Model of `move_to_trash_explicit_fast` in `imap_delete2.py`.  The outcome of
every IMAP call the function makes is supplied by an oracle; the run result
records the process exit status, the final `success_count`, whether an
`imaplib.IMAP4.abort` escaped the batch loop, the recorded outcome of each
processed batch, and the ordered trace of COPY / STORE / EXPUNGE commands
issued.
-/

/-- Outcome of one IMAP command inside the batch loop of `imap_delete2.py`:
status 'OK', a non-OK status, a non-abort exception (caught by the generic
handler at line 123), or `imaplib.IMAP4.abort` (re-raised at line 122). -/
inductive CallRes where
  | ok
  | notOk
  | exc
  | abortExc
deriving DecidableEq

/-- Per-call outcomes for the mutate pipeline, indexed by batch index and
attempt number. -/
structure MutOracle where
  copyRes : Nat → Nat → CallRes
  storeRes : Nat → Nat → CallRes

/-- One protocol event of the mutate pipeline, with the ID set the command
addressed and how the call ended. -/
inductive MEv where
  | copy (ids : List Nat) (r : CallRes)
  | store (ids : List Nat) (r : CallRes)
  | expunge
deriving DecidableEq

/-- Outcome of one attempt, of one batch, or of the whole loop. -/
inductive Outcome where
  | success
  | failure
  | aborted
deriving DecidableEq

/-- One attempt of the COPY+STORE pair for batch `b` (lines 105-124 of
`imap_delete2.py`): COPY first; STORE is issued only when COPY returned
'OK'; an abort from either call propagates. -/
def runAttempt (o : MutOracle) (b a : Nat) (ids : List Nat) :
    Outcome × List MEv :=
  match o.copyRes b a with
  | .ok =>
    match o.storeRes b a with
    | .ok => (.success, [.copy ids .ok, .store ids .ok])
    | .notOk => (.failure, [.copy ids .ok, .store ids .notOk])
    | .exc => (.failure, [.copy ids .ok, .store ids .exc])
    | .abortExc => (.aborted, [.copy ids .ok, .store ids .abortExc])
  | .notOk => (.failure, [.copy ids .notOk])
  | .exc => (.failure, [.copy ids .exc])
  | .abortExc => (.aborted, [.copy ids .abortExc])

/-- The attempt outcome depends only on the oracle, not on the ID set. -/
def attemptOut (o : MutOracle) (b a : Nat) : Outcome :=
  (runAttempt o b a []).1

/-- The retry loop for one batch, `for attempt in range(args.retries)`:
`n` attempts remain and `a` is the current attempt index.  A successful
attempt breaks out; an abort propagates; exhausting the attempts leaves
the batch failed. -/
def runChunkFrom (o : MutOracle) (b : Nat) (ids : List Nat) :
    Nat → Nat → Outcome × List MEv
  | 0, _ => (.failure, [])
  | n + 1, a =>
    match runAttempt o b a ids with
    | (.success, evs) => (.success, evs)
    | (.aborted, evs) => (.aborted, evs)
    | (.failure, evs) =>
      let r := runChunkFrom o b ids n (a + 1)
      (r.1, evs ++ r.2)

/-- Result of the batch loop (and of the whole pipeline). -/
structure LoopResult where
  successCount : Nat
  aborted : Bool
  outs : List Outcome
  trace : List MEv
deriving DecidableEq

/-- The batch loop of `imap_delete2.py` (lines 99-132): batches processed in
order, `success_count` grows by the batch length on success, a failed batch
is recorded and skipped, a re-raised abort ends the loop at once. -/
def runChunks (o : MutOracle) (retries : Nat) :
    List (List Nat) → Nat → LoopResult
  | [], _ => ⟨0, false, [], []⟩
  | c :: rest, b =>
    match runChunkFrom o b c retries 0 with
    | (.success, evs) =>
      let r := runChunks o retries rest (b + 1)
      ⟨c.length + r.successCount, r.aborted, .success :: r.outs, evs ++ r.trace⟩
    | (.failure, evs) =>
      let r := runChunks o retries rest (b + 1)
      ⟨r.successCount, r.aborted, .failure :: r.outs, evs ++ r.trace⟩
    | (.aborted, evs) => ⟨0, true, [.aborted], evs⟩

/-- Environment of one `imap_delete2.py` run: which setup steps succeed, the
search result, the flags, and the per-call oracle. -/
structure Config where
  hasUser : Bool
  hasPass : Bool
  connectOk : Bool
  loginOk : Bool
  selectOk : Bool
  searchOk : Bool
  mailIds : List Nat
  dryRun : Bool
  retries : Nat
  oracle : MutOracle

/-- Result of one `imap_delete2.py` run: `exitCode` is the process exit
status. -/
structure MRun where
  exitCode : Nat
  successCount : Nat
  aborted : Bool
  outs : List Outcome
  trace : List MEv
deriving DecidableEq

/-- Tail of the run after the batch loop (lines 134-140 of
`imap_delete2.py`): an abort that escaped the loop is caught by the outer
handler (exit 0, no expunge); otherwise EXPUNGE is issued exactly when
`success_count > 0`. -/
def finishRun (r : LoopResult) : MRun :=
  if r.aborted then ⟨0, r.successCount, true, r.outs, r.trace⟩
  else if 0 < r.successCount then
    ⟨0, r.successCount, false, r.outs, r.trace ++ [.expunge]⟩
  else ⟨0, r.successCount, false, r.outs, r.trace⟩

/-- The `move_to_trash_explicit_fast` pipeline of `imap_delete2.py`.
Missing credentials and connection or login failures call `sys.exit(1)`
(lines 42-44, 58-66); a failed SELECT or SEARCH and the empty or dry-run
cases return from the function, ending the process normally (exit 0);
otherwise the batch loop runs over 100-sized chunks and `finishRun`
closes the run. -/
def move_to_trash_explicit_fast (cfg : Config) : MRun :=
  if !(cfg.hasUser && cfg.hasPass) then ⟨1, 0, false, [], []⟩
  else if !cfg.connectOk then ⟨1, 0, false, [], []⟩
  else if !cfg.loginOk then ⟨1, 0, false, [], []⟩
  else if !cfg.selectOk then ⟨0, 0, false, [], []⟩
  else if !cfg.searchOk then ⟨0, 0, false, [], []⟩
  else if cfg.mailIds.isEmpty then ⟨0, 0, false, [], []⟩
  else if cfg.dryRun then ⟨0, 0, false, [], []⟩
  else finishRun (runChunks cfg.oracle cfg.retries (chunkSlices 100 cfg.mailIds) 0)

/-! ## Claim C1: STORE only after a successful COPY of the same ID set -/

/-- Holds of an adjacent pair of trace events unless the second is a STORE
not immediately preceded by a COPY of the same ID set that returned 'OK'. -/
def pairOk : MEv → MEv → Bool
  | a, .store ids _ => decide (a = .copy ids .ok)
  | _, _ => true

def chainPairs : MEv → List MEv → Bool
  | _, [] => true
  | a, b :: rest => pairOk a b && chainPairs b rest

/-- Every STORE in the trace is immediately preceded by a COPY of the same
ID set that returned 'OK' (in particular no trace starts with a STORE). -/
def storeCoveredB : List MEv → Bool
  | [] => true
  | .store _ _ :: _ => false
  | a :: rest => chainPairs a rest

def isStore : MEv → Bool
  | .store _ _ => true
  | _ => false

theorem storeCoveredB_cons_of_not_store (a : MEv) (rest : List MEv)
    (h : isStore a = false) : storeCoveredB (a :: rest) = chainPairs a rest := by
  cases a with
  | copy ids r => rfl
  | store ids r => simp [isStore] at h
  | expunge => rfl

theorem pairOk_of_not_store (a b : MEv) (h : isStore b = false) :
    pairOk a b = true := by
  cases b with
  | copy ids r => rfl
  | store ids r => simp [isStore] at h
  | expunge => rfl

theorem not_store_of_covered (a : MEv) (rest : List MEv)
    (h : storeCoveredB (a :: rest) = true) : isStore a = false := by
  cases a with
  | copy ids r => rfl
  | store ids r => simp [storeCoveredB] at h
  | expunge => rfl

theorem chainPairs_append (a : MEv) (xs ys : List MEv)
    (hx : chainPairs a xs = true) (hy : storeCoveredB ys = true) :
    chainPairs a (xs ++ ys) = true := by
  induction xs generalizing a with
  | nil =>
    cases ys with
    | nil => rfl
    | cons b rest =>
      have hb : isStore b = false := not_store_of_covered b rest hy
      have h1 : pairOk a b = true := pairOk_of_not_store a b hb
      have h2 : chainPairs b rest = true := by
        rw [← storeCoveredB_cons_of_not_store b rest hb]
        exact hy
      simp [chainPairs, h1, h2]
  | cons x xs ih =>
    simp only [chainPairs, Bool.and_eq_true] at hx
    simp only [List.cons_append, chainPairs, Bool.and_eq_true]
    exact ⟨hx.1, ih x hx.2⟩

theorem storeCoveredB_append (xs ys : List MEv)
    (hx : storeCoveredB xs = true) (hy : storeCoveredB ys = true) :
    storeCoveredB (xs ++ ys) = true := by
  cases xs with
  | nil => exact hy
  | cons a rest =>
    have ha : isStore a = false := not_store_of_covered a rest hx
    rw [List.cons_append, storeCoveredB_cons_of_not_store a _ ha]
    rw [storeCoveredB_cons_of_not_store a rest ha] at hx
    exact chainPairs_append a rest ys hx hy

theorem runAttempt_covered (o : MutOracle) (b a : Nat) (ids : List Nat) :
    storeCoveredB (runAttempt o b a ids).2 = true := by
  unfold runAttempt
  cases o.copyRes b a
  · cases o.storeRes b a <;> simp [storeCoveredB, chainPairs, pairOk]
  · simp [storeCoveredB, chainPairs, pairOk]
  · simp [storeCoveredB, chainPairs, pairOk]
  · simp [storeCoveredB, chainPairs, pairOk]

theorem runChunkFrom_covered (o : MutOracle) (b : Nat) (ids : List Nat) :
    ∀ n a, storeCoveredB (runChunkFrom o b ids n a).2 = true := by
  intro n
  induction n with
  | zero => intro a; rfl
  | succ n ih =>
    intro a
    have hcov := runAttempt_covered o b a ids
    rcases hA : runAttempt o b a ids with ⟨out, evs⟩
    rw [hA] at hcov
    unfold runChunkFrom
    rw [hA]
    cases out
    · exact hcov
    · exact storeCoveredB_append _ _ hcov (ih (a + 1))
    · exact hcov

theorem runChunks_covered (o : MutOracle) (retries : Nat) :
    ∀ cs b, storeCoveredB (runChunks o retries cs b).trace = true := by
  intro cs
  induction cs with
  | nil => intro b; rfl
  | cons c rest ih =>
    intro b
    have hcov := runChunkFrom_covered o b c retries 0
    rcases hA : runChunkFrom o b c retries 0 with ⟨out, evs⟩
    rw [hA] at hcov
    unfold runChunks
    rw [hA]
    cases out
    · exact storeCoveredB_append _ _ hcov (ih (b + 1))
    · exact storeCoveredB_append _ _ hcov (ih (b + 1))
    · exact hcov

/-- Claim C1: in every run of the mutate pipeline, whatever the oracle
returns for each call and attempt, a STORE of the deletion flag on an ID set
appears in the trace only immediately after a COPY of that same ID set that
returned 'OK'; a retried attempt restarts with COPY, so no message is ever
flagged deleted without having been copied in the same attempt. -/
theorem claim_C1_copy_before_store (cfg : Config) :
    storeCoveredB (move_to_trash_explicit_fast cfg).trace = true := by
  unfold move_to_trash_explicit_fast
  split
  · rfl
  split
  · rfl
  split
  · rfl
  split
  · rfl
  split
  · rfl
  split
  · rfl
  split
  · rfl
  have hcov := runChunks_covered cfg.oracle cfg.retries (chunkSlices 100 cfg.mailIds) 0
  unfold finishRun
  split
  · exact hcov
  split
  · exact storeCoveredB_append _ _ hcov rfl
  · exact hcov

/-! ## Claim C2: purge gating -/

def isExpunge : MEv → Bool
  | .expunge => true
  | _ => false

/-- Number of EXPUNGE commands in a trace. -/
def countExpunge (l : List MEv) : Nat := l.countP isExpunge

/-- Every EXPUNGE in the trace sits at its very last position. -/
def expungeAtEndB : List MEv → Bool
  | [] => true
  | [_] => true
  | e :: rest => !isExpunge e && expungeAtEndB rest

/-- The trace contains no EXPUNGE at all. -/
def noExpungeB (l : List MEv) : Bool := l.all (fun e => !isExpunge e)

theorem expungeAtEndB_of_noExpunge (l : List MEv)
    (h : noExpungeB l = true) : expungeAtEndB l = true := by
  induction l with
  | nil => rfl
  | cons e rest ih =>
    simp only [noExpungeB, List.all_cons, Bool.and_eq_true] at h
    cases rest with
    | nil => rfl
    | cons r1 rest1 =>
      have h2 : expungeAtEndB (r1 :: rest1) = true := ih h.2
      simp [expungeAtEndB, h.1, h2]

theorem expungeAtEndB_append_expunge (l : List MEv)
    (h : noExpungeB l = true) :
    expungeAtEndB (l ++ [MEv.expunge]) = true := by
  induction l with
  | nil => rfl
  | cons e rest ih =>
    simp only [noExpungeB, List.all_cons, Bool.and_eq_true] at h
    cases rest with
    | nil => simp [expungeAtEndB, h.1]
    | cons r1 rest1 =>
      have h2 := ih h.2
      simp only [List.cons_append] at h2 ⊢
      simp [expungeAtEndB, h.1, h2]

theorem countExpunge_of_noExpunge (l : List MEv)
    (h : noExpungeB l = true) : countExpunge l = 0 := by
  rw [countExpunge, List.countP_eq_zero]
  intro e he
  have := List.all_eq_true.mp h e he
  simp at this
  simp [this]

theorem countExpunge_append_expunge (l : List MEv) :
    countExpunge (l ++ [MEv.expunge]) = countExpunge l + 1 := by
  rw [countExpunge, List.countP_append]
  rfl

theorem noExpungeB_append (xs ys : List MEv)
    (hx : noExpungeB xs = true) (hy : noExpungeB ys = true) :
    noExpungeB (xs ++ ys) = true := by
  rw [noExpungeB, List.all_append]
  rw [noExpungeB] at hx hy
  simp [hx, hy]

theorem runAttempt_noExpunge (o : MutOracle) (b a : Nat) (ids : List Nat) :
    noExpungeB (runAttempt o b a ids).2 = true := by
  unfold runAttempt
  cases o.copyRes b a
  · cases o.storeRes b a <;> simp [noExpungeB, isExpunge]
  · simp [noExpungeB, isExpunge]
  · simp [noExpungeB, isExpunge]
  · simp [noExpungeB, isExpunge]

theorem runChunkFrom_noExpunge (o : MutOracle) (b : Nat) (ids : List Nat) :
    ∀ n a, noExpungeB (runChunkFrom o b ids n a).2 = true := by
  intro n
  induction n with
  | zero => intro a; rfl
  | succ n ih =>
    intro a
    have hcov := runAttempt_noExpunge o b a ids
    rcases hA : runAttempt o b a ids with ⟨out, evs⟩
    rw [hA] at hcov
    unfold runChunkFrom
    rw [hA]
    cases out
    · exact hcov
    · exact noExpungeB_append _ _ hcov (ih (a + 1))
    · exact hcov

theorem runChunks_noExpunge (o : MutOracle) (retries : Nat) :
    ∀ cs b, noExpungeB (runChunks o retries cs b).trace = true := by
  intro cs
  induction cs with
  | nil => intro b; rfl
  | cons c rest ih =>
    intro b
    have hcov := runChunkFrom_noExpunge o b c retries 0
    rcases hA : runChunkFrom o b c retries 0 with ⟨out, evs⟩
    rw [hA] at hcov
    unfold runChunks
    rw [hA]
    cases out
    · exact noExpungeB_append _ _ hcov (ih (b + 1))
    · exact noExpungeB_append _ _ hcov (ih (b + 1))
    · exact hcov

theorem finishRun_expunge (r : LoopResult) (h : noExpungeB r.trace = true) :
    expungeAtEndB (finishRun r).trace = true ∧
    countExpunge (finishRun r).trace =
      (if (finishRun r).aborted = false ∧ 0 < (finishRun r).successCount
        then 1 else 0) := by
  unfold finishRun
  split
  · refine ⟨expungeAtEndB_of_noExpunge _ h, ?_⟩
    rw [countExpunge_of_noExpunge _ h]
    simp
  · split
    · rename_i hsc
      refine ⟨expungeAtEndB_append_expunge _ h, ?_⟩
      rw [countExpunge_append_expunge, countExpunge_of_noExpunge _ h]
      simp [hsc]
    · rename_i hsc
      refine ⟨expungeAtEndB_of_noExpunge _ h, ?_⟩
      rw [countExpunge_of_noExpunge _ h]
      simp [hsc]

/-- Amendment of claim C2: EXPUNGE is issued at most once per run and only
as the final protocol command, after every processed batch; in a run where
no abort escaped the batch loop it is issued exactly when the success
count is positive (some batch's COPY and STORE both returned 'OK').  The
original biconditional fails when an abort ends the loop after a
successful batch, see the counterexample. -/
theorem claim_C2_purge_gating (cfg : Config) :
    expungeAtEndB (move_to_trash_explicit_fast cfg).trace = true ∧
    countExpunge (move_to_trash_explicit_fast cfg).trace =
      (if (move_to_trash_explicit_fast cfg).aborted = false ∧
          0 < (move_to_trash_explicit_fast cfg).successCount
        then 1 else 0) := by
  unfold move_to_trash_explicit_fast
  split
  · exact ⟨rfl, rfl⟩
  split
  · exact ⟨rfl, rfl⟩
  split
  · exact ⟨rfl, rfl⟩
  split
  · exact ⟨rfl, rfl⟩
  split
  · exact ⟨rfl, rfl⟩
  split
  · exact ⟨rfl, rfl⟩
  split
  · exact ⟨rfl, rfl⟩
  exact finishRun_expunge _
    (runChunks_noExpunge cfg.oracle cfg.retries (chunkSlices 100 cfg.mailIds) 0)

/-- Oracle that lets batch 0 succeed and aborts the COPY of every later
batch. -/
def abortAfterFirst : MutOracle where
  copyRes := fun b _ => if b = 0 then .ok else .abortExc
  storeRes := fun _ _ => .ok

/-- A run over 101 identifiers (two batches) in which batch 0 succeeds and
batch 1 raises abort. -/
def cfgC2 : Config where
  hasUser := true
  hasPass := true
  connectOk := true
  loginOk := true
  selectOk := true
  searchOk := true
  mailIds := List.range 101
  dryRun := false
  retries := 3
  oracle := abortAfterFirst

/-- Counterexample to claim C2 as stated: in this run a chunk succeeded
(success count 100 > 0) yet no EXPUNGE is ever issued, because the abort
raised by the second batch escapes the loop and is caught by the outer
handler, skipping the purge. -/
theorem claim_C2_counterexample :
    0 < (move_to_trash_explicit_fast cfgC2).successCount ∧
    countExpunge (move_to_trash_explicit_fast cfgC2).trace = 0 := by
  decide

/-! ## Claim C4: per-chunk failure isolation -/

def isCopy : MEv → Bool
  | .copy _ _ => true
  | _ => false

/-- Number of COPY commands in a trace (one per attempt of a batch). -/
def countCopy (l : List MEv) : Nat := l.countP isCopy

/-- No call of the run raises `imaplib.IMAP4.abort`. -/
def noAbort (o : MutOracle) : Prop :=
  ∀ b a, o.copyRes b a ≠ .abortExc ∧ o.storeRes b a ≠ .abortExc

theorem runAttempt_fst (o : MutOracle) (b a : Nat) (ids : List Nat) :
    (runAttempt o b a ids).1 = attemptOut o b a := by
  unfold attemptOut runAttempt
  cases o.copyRes b a <;> cases o.storeRes b a <;> rfl

theorem attemptOut_ne_aborted (o : MutOracle) (hna : noAbort o) (b a : Nat) :
    attemptOut o b a ≠ .aborted := by
  rcases hna b a with ⟨h1, h2⟩
  unfold attemptOut runAttempt
  cases hc : o.copyRes b a <;> cases hs : o.storeRes b a <;> simp_all

theorem runAttempt_countCopy (o : MutOracle) (b a : Nat) (ids : List Nat) :
    countCopy (runAttempt o b a ids).2 = 1 := by
  unfold runAttempt
  cases o.copyRes b a <;> cases o.storeRes b a <;>
    simp [countCopy, isCopy, List.countP_cons]

theorem runChunkFrom_allfail (o : MutOracle) (b : Nat) (ids : List Nat) :
    ∀ n a, (∀ k, k < n → attemptOut o b (a + k) = .failure) →
      (runChunkFrom o b ids n a).1 = .failure ∧
      countCopy (runChunkFrom o b ids n a).2 = n := by
  intro n
  induction n with
  | zero => intro a _; exact ⟨rfl, rfl⟩
  | succ n ih =>
    intro a hfail
    have h0 : attemptOut o b a = .failure := by
      have := hfail 0 (by omega)
      simpa using this
    have hfst := runAttempt_fst o b a ids
    have hcc := runAttempt_countCopy o b a ids
    rcases hA : runAttempt o b a ids with ⟨out, evs⟩
    rw [hA] at hfst hcc
    simp only at hfst hcc
    have hout : out = .failure := by rw [hfst, h0]
    subst hout
    have hrec := ih (a + 1) (fun k hk => by
      have := hfail (k + 1) (by omega)
      have harith : a + (k + 1) = a + 1 + k := by omega
      rwa [harith] at this)
    unfold runChunkFrom
    rw [hA]
    refine ⟨hrec.1, ?_⟩
    simp only [countCopy, List.countP_append]
    rw [← countCopy, ← countCopy, hcc, hrec.2]
    omega

theorem runChunkFrom_ne_aborted (o : MutOracle) (hna : noAbort o)
    (b : Nat) (ids : List Nat) :
    ∀ n a, (runChunkFrom o b ids n a).1 ≠ .aborted := by
  intro n
  induction n with
  | zero => intro a h; simp [runChunkFrom] at h
  | succ n ih =>
    intro a
    have hfst := runAttempt_fst o b a ids
    have hne := attemptOut_ne_aborted o hna b a
    rcases hA : runAttempt o b a ids with ⟨out, evs⟩
    rw [hA] at hfst
    simp only at hfst
    unfold runChunkFrom
    rw [hA]
    cases out
    · simp
    · simpa using ih (a + 1)
    · rw [hfst] at hne; simp at hne

theorem runChunks_isolation (o : MutOracle) (retries : Nat) (hna : noAbort o) :
    ∀ cs b,
      (runChunks o retries cs b).aborted = false ∧
      (runChunks o retries cs b).outs.length = cs.length ∧
      (∀ j, j < cs.length →
        (∀ a, a < retries → attemptOut o (b + j) a = .failure) →
        (runChunks o retries cs b).outs[j]? = some Outcome.failure) := by
  intro cs
  induction cs with
  | nil => intro b; exact ⟨rfl, rfl, fun j hj _ => absurd hj (by simp)⟩
  | cons c rest ih =>
    intro b
    have hne := runChunkFrom_ne_aborted o hna b c retries 0
    rcases hA : runChunkFrom o b c retries 0 with ⟨out, evs⟩
    have hout : out ≠ .aborted := by
      intro h; exact hne (by rw [hA, h])
    have hrec := ih (b + 1)
    unfold runChunks
    rw [hA]
    cases out
    · -- batch succeeded
      refine ⟨hrec.1, by simpa using hrec.2.1, ?_⟩
      intro j hj hfail
      cases j with
      | zero =>
        exfalso
        have hf := runChunkFrom_allfail o b c retries 0
          (fun k hk => by simpa using hfail k hk)
        rw [hA] at hf
        simp at hf
      | succ j =>
        simp only [List.getElem?_cons_succ]
        apply hrec.2.2 j (by simpa using hj)
        intro a ha
        have harith : b + 1 + j = b + (j + 1) := by omega
        rw [harith]
        exact hfail a ha
    · -- batch failed, siblings continue
      refine ⟨hrec.1, by simpa using hrec.2.1, ?_⟩
      intro j hj hfail
      cases j with
      | zero => simp
      | succ j =>
        simp only [List.getElem?_cons_succ]
        apply hrec.2.2 j (by simpa using hj)
        intro a ha
        have harith : b + 1 + j = b + (j + 1) := by omega
        rw [harith]
        exact hfail a ha
    · exact absurd rfl hout

theorem finishRun_outs (r : LoopResult) : (finishRun r).outs = r.outs := by
  unfold finishRun
  split
  · rfl
  split
  · rfl
  · rfl

theorem finishRun_aborted (r : LoopResult) :
    (finishRun r).aborted = r.aborted := by
  unfold finishRun
  split
  · rename_i h; exact h.symm
  · rename_i h
    have hf : r.aborted = false := by simpa using h
    split
    · exact hf.symm
    · exact hf.symm

theorem finishRun_successCount (r : LoopResult) :
    (finishRun r).successCount = r.successCount := by
  unfold finishRun
  split
  · rfl
  split
  · rfl
  · rfl

theorem finishRun_exitCode (r : LoopResult) : (finishRun r).exitCode = 0 := by
  unfold finishRun
  split
  · rfl
  split
  · rfl
  · rfl

/-- All setup steps succeed, the search is non-empty and dry-run is off, so
the run reaches the batch loop. -/
def reachesLoop (cfg : Config) : Bool :=
  cfg.hasUser && cfg.hasPass && cfg.connectOk && cfg.loginOk &&
    cfg.selectOk && cfg.searchOk && !cfg.mailIds.isEmpty && !cfg.dryRun

/-- Amendment of claim C4: in a run that reaches the batch loop and in which
no call raises `imaplib.IMAP4.abort`, every batch is processed (one recorded
outcome per planned chunk, no abort escapes), a batch whose attempts all
fail is recorded failed while its siblings still run, and such a batch is
retried exactly `retries` times (one COPY per attempt).  The original claim
fails for abort-class connection failures, which `imap_delete2.py` re-raises
without retry, ending the whole loop: see the counterexample. -/
theorem claim_C4_failure_isolation (cfg : Config)
    (hreach : reachesLoop cfg = true) (hna : noAbort cfg.oracle) :
    (move_to_trash_explicit_fast cfg).aborted = false ∧
    (move_to_trash_explicit_fast cfg).outs.length =
      (chunkSlices 100 cfg.mailIds).length ∧
    (∀ b, b < (chunkSlices 100 cfg.mailIds).length →
      (∀ a, a < cfg.retries → attemptOut cfg.oracle b a = Outcome.failure) →
      (move_to_trash_explicit_fast cfg).outs[b]? = some Outcome.failure) ∧
    (∀ b ids, (∀ a, a < cfg.retries → attemptOut cfg.oracle b a = Outcome.failure) →
      countCopy (runChunkFrom cfg.oracle b ids cfg.retries 0).2 = cfg.retries) := by
  have hiso := runChunks_isolation cfg.oracle cfg.retries hna
    (chunkSlices 100 cfg.mailIds) 0
  simp only [reachesLoop, Bool.and_eq_true, Bool.not_eq_true'] at hreach
  obtain ⟨⟨⟨⟨⟨⟨⟨h1, h2⟩, h3⟩, h4⟩, h5⟩, h6⟩, h7⟩, h8⟩ := hreach
  unfold move_to_trash_explicit_fast
  rw [if_neg (by simp [h1, h2]), if_neg (by simp [h3]), if_neg (by simp [h4]),
    if_neg (by simp [h5]), if_neg (by simp [h6]), if_neg (by simp [h7]),
    if_neg (by simp [h8])]
  refine ⟨?_, ?_, ?_, ?_⟩
  · rw [finishRun_aborted]
    exact hiso.1
  · rw [finishRun_outs]
    exact hiso.2.1
  · intro b hb hfail
    rw [finishRun_outs]
    exact hiso.2.2 b hb (by simpa using hfail)
  · intro b ids hfail
    exact (runChunkFrom_allfail cfg.oracle b ids cfg.retries 0
      (fun k hk => by simpa using hfail k hk)).2

/-- Oracle for the C4 witness: batch 0 always raises a generic (non-abort)
exception on COPY, every other batch succeeds. -/
def excFirstBatch : MutOracle where
  copyRes := fun b _ => if b = 0 then .exc else .ok
  storeRes := fun _ _ => .ok

/-- Run over two batches in which batch 0 exhausts its two attempts with
generic errors and batch 1 succeeds. -/
def cfgC4w : Config where
  hasUser := true
  hasPass := true
  connectOk := true
  loginOk := true
  selectOk := true
  searchOk := true
  mailIds := List.range 101
  dryRun := false
  retries := 2
  oracle := excFirstBatch

/-- Witness for the amended C4 at a concrete run: two batches, batch 0
failing every attempt with a generic error. -/
theorem claim_C4_failure_isolation_witness :
    (move_to_trash_explicit_fast cfgC4w).aborted = false ∧
    (move_to_trash_explicit_fast cfgC4w).outs.length =
      (chunkSlices 100 cfgC4w.mailIds).length ∧
    (∀ b, b < (chunkSlices 100 cfgC4w.mailIds).length →
      (∀ a, a < cfgC4w.retries → attemptOut cfgC4w.oracle b a = Outcome.failure) →
      (move_to_trash_explicit_fast cfgC4w).outs[b]? = some Outcome.failure) ∧
    (∀ b ids, (∀ a, a < cfgC4w.retries → attemptOut cfgC4w.oracle b a = Outcome.failure) →
      countCopy (runChunkFrom cfgC4w.oracle b ids cfgC4w.retries 0).2 = cfgC4w.retries) :=
  claim_C4_failure_isolation cfgC4w (by decide)
    (fun b a => by
      constructor
      · show (if b = 0 then CallRes.exc else CallRes.ok) ≠ CallRes.abortExc
        split <;> simp
      · show CallRes.ok ≠ CallRes.abortExc
        simp)

/-- Oracle whose every COPY raises `imaplib.IMAP4.abort`. -/
def abortOracle : MutOracle where
  copyRes := fun _ _ => .abortExc
  storeRes := fun _ _ => .ok

/-- Run over two batches, retry budget 3, whose first COPY aborts. -/
def cfgC4 : Config where
  hasUser := true
  hasPass := true
  connectOk := true
  loginOk := true
  selectOk := true
  searchOk := true
  mailIds := List.range 101
  dryRun := false
  retries := 3
  oracle := abortOracle

/-- Counterexample to claim C4 as stated: the run plans two batches and has
a retry budget of 3, yet the abort raised by batch 0's very first COPY is
re-raised at once — the whole trace is that single COPY call, so the
connection failure was neither retried nor confined to its batch, and the
sibling batch was never processed (a single recorded outcome). -/
theorem claim_C4_counterexample :
    (chunkSlices 100 (List.range 101)).length = 2 ∧
    (move_to_trash_explicit_fast cfgC4).trace =
      [MEv.copy ((List.range 101).take 100) CallRes.abortExc] ∧
    (move_to_trash_explicit_fast cfgC4).outs = [Outcome.aborted] := by
  decide

/-! ## Claim C9: process exit status -/

/-- Oracle for runs whose calls all succeed. -/
def okOracle : MutOracle where
  copyRes := fun _ _ => .ok
  storeRes := fun _ _ => .ok

theorem exit_zero_after_login (se sr : Bool) (ids : List Nat) (dr : Bool)
    (rt : Nat) (o : MutOracle) :
    (move_to_trash_explicit_fast ⟨true, true, true, true, se, sr, ids, dr, rt, o⟩).exitCode = 0 := by
  unfold move_to_trash_explicit_fast
  rw [if_neg (by simp), if_neg (by simp), if_neg (by simp)]
  split
  · rfl
  split
  · rfl
  split
  · rfl
  split
  · rfl
  exact finishRun_exitCode _

/-- Amendment of claim C9: the process exits 0 when the run completes and
exits 1 when credentials are missing (or the connection or login fails);
but when the target folder cannot be selected the error is only logged and
the function returns, so the process still exits 0 — contrary to the
original claim, see the counterexample. -/
theorem claim_C9_exit_status (cfg : Config) :
    (move_to_trash_explicit_fast cfg).exitCode =
      (if cfg.hasUser && cfg.hasPass && cfg.connectOk && cfg.loginOk
        then 0 else 1) := by
  obtain ⟨hu, hp, co, lo, se, sr, ids, dr, rt, o⟩ := cfg
  cases hu <;> cases hp <;> cases co <;> cases lo <;>
    first
      | simpa using exit_zero_after_login se sr ids dr rt o
      | simp [move_to_trash_explicit_fast]

/-- Run with valid credentials and a working connection whose folder SELECT
fails. -/
def cfgSelFail : Config where
  hasUser := true
  hasPass := true
  connectOk := true
  loginOk := true
  selectOk := false
  searchOk := true
  mailIds := [1, 2, 3]
  dryRun := false
  retries := 3
  oracle := okOracle

/-- Counterexample to claim C9 as stated: when the target folder cannot be
selected the run logs the failure and returns, and the process exit status
is 0, not non-zero. -/
theorem claim_C9_counterexample :
    cfgSelFail.selectOk = false ∧
    (move_to_trash_explicit_fast cfgSelFail).exitCode = 0 := by
  decide

/-! ## Claim C10: empty search result -/

/-- Claim C10: when the sender search matches no identifiers the run returns
right after counting — the protocol trace is empty (no COPY, STORE or
EXPUNGE reaches the server, leaving both folders unchanged) and the success
count stays zero. -/
theorem claim_C10_empty_search (cfg : Config) (h : cfg.mailIds = []) :
    (move_to_trash_explicit_fast cfg).trace = [] ∧
    (move_to_trash_explicit_fast cfg).successCount = 0 := by
  unfold move_to_trash_explicit_fast
  split
  · exact ⟨rfl, rfl⟩
  split
  · exact ⟨rfl, rfl⟩
  split
  · exact ⟨rfl, rfl⟩
  split
  · exact ⟨rfl, rfl⟩
  split
  · exact ⟨rfl, rfl⟩
  split
  · exact ⟨rfl, rfl⟩
  exfalso
  rename_i hne
  exact hne (by simp [h])

/-- Run whose search matches nothing. -/
def cfgEmpty : Config where
  hasUser := true
  hasPass := true
  connectOk := true
  loginOk := true
  selectOk := true
  searchOk := true
  mailIds := []
  dryRun := false
  retries := 3
  oracle := okOracle

/-- Witness for C10: a concrete run with an empty search result. -/
theorem claim_C10_empty_search_witness :
    (move_to_trash_explicit_fast cfgEmpty).trace = [] ∧
    (move_to_trash_explicit_fast cfgEmpty).successCount = 0 :=
  claim_C10_empty_search cfgEmpty rfl

/-! ## Session Manager retry wrapper

Model of `ResilientIMAP._retry_operation` together with `_connect` from
`imap_delete.py` (lines 28-40 and 47-59).  The wrapped protocol call's
behaviour at each attempt is an oracle value: it returns a value, raises a
connection-class error (`imaplib.IMAP4.abort`, `socket.error`, `EOFError` —
the tuple the `except` clause catches) or raises any other exception
(which propagates uncaught).
-/

/-- How one invocation of the wrapped operation ends. -/
inductive CallOut (α ε : Type) where
  | ok (v : α)
  | connErr (e : ε)
  | otherErr (e : ε)

/-- How `_retry_operation` itself ends: a value, the last caught connection
error re-raised after the budget is spent, an uncaught non-connection
exception, or (for a retry budget of zero) Python's `raise None`. -/
inductive RetryResult (α ε : Type) where
  | ok (v : α)
  | raised (e : ε)
  | raisedOther (e : ε)
  | raisedNone
deriving DecidableEq

/-- Protocol-level events of the retry wrapper. -/
inductive REv where
  | opCall (attempt : Nat)
  | sleepDelay
  | relogin
  | reselect (folder : String) (readonly : Bool)
deriving DecidableEq

/-- Events of `_connect`: a fresh login, then — when a folder is remembered —
reselection of that folder in the remembered mode. -/
def connectEvents (folder : Option (String × Bool)) : List REv :=
  .relogin ::
    (match folder with
      | some (f, ro) => [.reselect f ro]
      | none => [])

/-- The retry loop from attempt `a` with `n` attempts remaining: try the
call; catch a connection error; if attempts remain, sleep the fixed delay
and reconnect, else fall out of the loop and re-raise the last error. -/
def retryFrom (oracle : Nat → CallOut α ε) (folder : Option (String × Bool)) :
    Nat → Nat → Option ε → RetryResult α ε × List REv
  | 0, _, last =>
    ((match last with
      | some e => .raised e
      | none => .raisedNone), [])
  | n + 1, a, _ =>
    match oracle a with
    | .ok v => (.ok v, [.opCall a])
    | .otherErr e => (.raisedOther e, [.opCall a])
    | .connErr e =>
      if n = 0 then (.raised e, [.opCall a])
      else
        let r := retryFrom oracle folder n (a + 1) (some e)
        (r.1, .opCall a :: .sleepDelay :: (connectEvents folder ++ r.2))

/-- ResilientIMAP._retry_operation of `imap_delete.py`:
`for attempt in range(self.retries)` starting at attempt 0 with no error
caught yet. -/
def _retry_operation (retries : Nat) (oracle : Nat → CallOut α ε)
    (folder : Option (String × Bool)) : RetryResult α ε × List REv :=
  retryFrom oracle folder retries 0 none

def isOpCall : REv → Bool
  | .opCall _ => true
  | _ => false

/-- Number of invocations of the wrapped operation in a trace. -/
def opCallCount (l : List REv) : Nat := l.countP isOpCall

/-- The trace of a run whose every attempt fails with a connection error:
the call at attempt `a`, then — while attempts remain — the fixed delay,
the reconnect (login and reselect) and the next attempt. -/
def allFailTrace (folder : Option (String × Bool)) : Nat → Nat → List REv
  | 0, _ => []
  | n + 1, a =>
    .opCall a ::
      (if n = 0 then []
        else .sleepDelay :: (connectEvents folder ++ allFailTrace folder n (a + 1)))

theorem connectEvents_opCount (folder : Option (String × Bool)) :
    opCallCount (connectEvents folder) = 0 := by
  rcases folder with _ | ⟨f, ro⟩
  · rfl
  · rfl

theorem allFailTrace_opCount (folder : Option (String × Bool)) :
    ∀ n a, opCallCount (allFailTrace folder n a) = n := by
  intro n
  induction n with
  | zero => intro a; rfl
  | succ n ih =>
    intro a
    unfold allFailTrace
    by_cases h : n = 0
    · subst h
      rfl
    · rw [if_neg h]
      simp only [opCallCount, List.countP_cons, List.countP_append]
      have h1 := ih (a + 1)
      have h2 := connectEvents_opCount folder
      simp only [opCallCount] at h1 h2
      simp [isOpCall, h1, h2]


theorem allFailTrace_cons (folder : Option (String × Bool)) (m a : Nat)
    (h : m ≠ 0) :
    allFailTrace folder (m + 1) a =
      .opCall a :: .sleepDelay ::
        (connectEvents folder ++ allFailTrace folder m (a + 1)) := by
  conv_lhs => rw [allFailTrace]
  rw [if_neg h]

theorem retryFrom_connErr_last (oracle : Nat → CallOut α ε)
    (folder : Option (String × Bool)) (a : Nat) (last : Option ε) (e : ε)
    (h0 : oracle a = .connErr e) :
    retryFrom oracle folder 1 a last = (.raised e, [.opCall a]) := by
  unfold retryFrom
  rw [h0]
  rfl

theorem retryFrom_connErr_step (oracle : Nat → CallOut α ε)
    (folder : Option (String × Bool)) (n a : Nat) (last : Option ε) (e : ε)
    (h0 : oracle a = .connErr e) (hn : n ≠ 0) :
    retryFrom oracle folder (n + 1) a last =
      ((retryFrom oracle folder n (a + 1) (some e)).1,
        .opCall a :: .sleepDelay ::
          (connectEvents folder ++ (retryFrom oracle folder n (a + 1) (some e)).2)) := by
  conv_lhs => rw [retryFrom]
  rw [h0]
  dsimp only
  rw [if_neg hn]

theorem retryFrom_allfail (oracle : Nat → CallOut α ε)
    (folder : Option (String × Bool)) (errf : Nat → ε) :
    ∀ n a last, 1 ≤ n →
      (∀ k, k < n → oracle (a + k) = .connErr (errf (a + k))) →
      retryFrom oracle folder n a last =
        (.raised (errf (a + n - 1)), allFailTrace folder n a) := by
  intro n
  induction n with
  | zero => intro a last h; omega
  | succ n ih =>
    intro a last _ hfail
    have h0 : oracle a = .connErr (errf a) := by
      have := hfail 0 (by omega)
      simpa using this
    by_cases hn : n = 0
    · subst hn
      rw [retryFrom_connErr_last oracle folder a last (errf a) h0]
      rfl
    · rw [retryFrom_connErr_step oracle folder n a last (errf a) h0 hn]
      have hrec := ih (a + 1) (some (errf a)) (by omega) (fun k hk => by
        have := hfail (k + 1) (by omega)
        have harith : a + (k + 1) = a + 1 + k := by omega
        rwa [harith] at this)
      rw [hrec]
      obtain ⟨m, rfl⟩ : ∃ m, n = m + 1 := ⟨n - 1, by omega⟩
      rw [allFailTrace_cons folder (m + 1) a (by omega)]
      have harith2 : a + 1 + (m + 1) - 1 = a + (m + 1 + 1) - 1 := by omega
      rw [harith2]

theorem retryFrom_opCount_le (oracle : Nat → CallOut α ε)
    (folder : Option (String × Bool)) :
    ∀ n a last, opCallCount (retryFrom oracle folder n a last).2 ≤ n := by
  intro n
  induction n with
  | zero =>
    intro a last
    rcases last with _ | e
    · exact Nat.le_refl 0
    · exact Nat.le_refl 0
  | succ n ih =>
    intro a last
    rcases hor : oracle a with v | e | e
    · unfold retryFrom
      rw [hor]
      simp [opCallCount, isOpCall, List.countP_cons]
    · by_cases hn : n = 0
      · subst hn
        rw [retryFrom_connErr_last oracle folder a last e hor]
        simp [opCallCount, isOpCall, List.countP_cons]
      · rw [retryFrom_connErr_step oracle folder n a last e hor hn]
        simp only [opCallCount, List.countP_cons, List.countP_append]
        have h1 := ih (a + 1) (some e)
        have h2 := connectEvents_opCount folder
        simp only [opCallCount] at h1 h2
        simp [isOpCall, h2]
        omega
    · unfold retryFrom
      rw [hor]
      simp [opCallCount, isOpCall, List.countP_cons]

/-- Claim C5: for an operation run through `_retry_operation` whose every
attempt raises a connection-class error, the wrapper makes exactly
`retries` attempts, every attempt after the first is preceded by the fixed
delay and a full reconnect — re-login plus reselect of the remembered
folder and mode (the shape recorded by `allFailTrace`) — and once the
budget is exhausted the last caught error is raised to the caller; for any
oracle at all, at most `retries` attempts are made. -/
theorem claim_C5_retry_reconnect {α ε : Type} (retries : Nat)
    (oracle : Nat → CallOut α ε) (f : String) (ro : Bool) (errf : Nat → ε)
    (hretries : 1 ≤ retries)
    (hfail : ∀ k, k < retries → oracle k = .connErr (errf k)) :
    (_retry_operation retries oracle (some (f, ro))).1 =
      RetryResult.raised (errf (retries - 1)) ∧
    (_retry_operation retries oracle (some (f, ro))).2 =
      allFailTrace (some (f, ro)) retries 0 ∧
    opCallCount (_retry_operation retries oracle (some (f, ro))).2 = retries ∧
    (∀ oracle' : Nat → CallOut α ε,
      opCallCount (_retry_operation retries oracle' (some (f, ro))).2 ≤ retries) := by
  have h := retryFrom_allfail oracle (some (f, ro)) errf retries 0 none hretries
    (fun k hk => by simpa using hfail k hk)
  simp only [Nat.zero_add] at h
  refine ⟨?_, ?_, ?_, ?_⟩
  · unfold _retry_operation
    rw [h]
  · unfold _retry_operation
    rw [h]
  · unfold _retry_operation
    rw [h]
    exact allFailTrace_opCount _ retries 0
  · intro oracle'
    exact retryFrom_opCount_le oracle' (some (f, ro)) retries 0 none

/-- Witness for C5: retry budget 2 over folder INBOX selected read-only,
every attempt failing with a connection error. -/
theorem claim_C5_retry_reconnect_witness :
    (_retry_operation 2 (fun k => (CallOut.connErr k : CallOut Unit Nat))
      (some ("INBOX", true))).1 = RetryResult.raised 1 ∧
    (_retry_operation 2 (fun k => (CallOut.connErr k : CallOut Unit Nat))
      (some ("INBOX", true))).2 = allFailTrace (some ("INBOX", true)) 2 0 ∧
    opCallCount ((_retry_operation 2
      (fun k => (CallOut.connErr k : CallOut Unit Nat))
      (some ("INBOX", true))).2) = 2 ∧
    (∀ oracle' : Nat → CallOut Unit Nat,
      opCallCount (_retry_operation 2 oracle' (some ("INBOX", true))).2 ≤ 2) :=
  claim_C5_retry_reconnect 2 (fun k => CallOut.connErr k) "INBOX" true
    (fun k => k) (by omega) (fun k _ => rfl)

/-! ## Claim C7: session construction

Model of the two `ResilientIMAP._connect` variants at construction time
(`current_folder` is still `None`).  In `imap_delete.py` (lines 28-40) the
exceptions of `IMAP4_SSL` and `login` propagate out of `__init__`; in
`imap_count.py` (lines 55-70) `_connect` wraps everything in
`try/except Exception`, logs the failure and returns normally.
-/

/-- What the two connection steps would do if invoked. -/
structure ConnAttempt (ε : Type) where
  sslResult : Except ε Unit
  loginResult : Except ε Unit

/-- A session handle: the one flag that matters here is whether `login`
completed on it. -/
structure MailHandle where
  authenticated : Bool
deriving DecidableEq

/-- State of an `imap_count.py` ResilientIMAP after `__init__`: `self.mail`
is `None` when `IMAP4_SSL` itself raised, an unauthenticated handle when
`login` raised, an authenticated one otherwise. -/
structure CSession where
  mail : Option MailHandle
deriving DecidableEq

/-- ResilientIMAP._connect of `imap_delete.py` at construction: either an
authenticated session is produced or the connection error propagates to
the caller of the constructor. -/
def connect_delete (o : ConnAttempt ε) : Except ε MailHandle :=
  match o.sslResult with
  | .error e => .error e
  | .ok _ =>
    match o.loginResult with
    | .error e => .error e
    | .ok _ => .ok { authenticated := true }

/-- ResilientIMAP._connect of `imap_count.py` at construction: the
`except Exception` clause absorbs both failures, so the constructor always
returns normally; the result type carries no error case because no
exception can escape. -/
def connect_count (o : ConnAttempt ε) : CSession :=
  match o.sslResult with
  | .error _ => { mail := none }
  | .ok _ =>
    match o.loginResult with
    | .error _ => { mail := some { authenticated := false } }
    | .ok _ => { mail := some { authenticated := true } }

/-- Amendment of claim C7: the `imap_delete.py` constructor never returns
an unauthenticated session — it either yields an authenticated connection
or lets the connectivity error propagate; the `imap_count.py` variant
instead swallows the failure and returns unauthenticated, see the
counterexample. -/
theorem claim_C7_connect_authenticates {ε : Type} (o : ConnAttempt ε) :
    (∀ h, connect_delete o = .ok h → h.authenticated = true) ∧
    (∀ e : ε, o.sslResult = .error e → connect_delete o = .error e) ∧
    (∀ e : ε, o.sslResult = .ok () → o.loginResult = .error e →
      connect_delete o = .error e) := by
  refine ⟨?_, ?_, ?_⟩
  · intro h hok
    unfold connect_delete at hok
    rcases hs : o.sslResult with e | u
    · rw [hs] at hok
      simp at hok
    · rw [hs] at hok
      rcases hl : o.loginResult with e | u2
      · rw [hl] at hok
        simp at hok
      · rw [hl] at hok
        simp only [Except.ok.injEq] at hok
        rw [← hok]
  · intro e hs
    unfold connect_delete
    rw [hs]
  · intro e hs hl
    unfold connect_delete
    rw [hs, hl]

/-- Witness for the amended C7: a successful SSL handshake and login yield
an authenticated session; a failing handshake or login propagates its
error. -/
theorem claim_C7_connect_authenticates_witness :
    (∀ h, connect_delete ({ sslResult := .ok (), loginResult := .ok () } :
        ConnAttempt Nat) = .ok h → h.authenticated = true) ∧
    (∀ e : Nat, ({ sslResult := .error 7, loginResult := .ok () } :
        ConnAttempt Nat).sslResult = .error e →
      connect_delete { sslResult := .error 7, loginResult := .ok () } = .error e) ∧
    (∀ e : Nat, ({ sslResult := .error 7, loginResult := .ok () } :
        ConnAttempt Nat).sslResult = .ok () →
      ({ sslResult := .error 7, loginResult := .ok () } :
        ConnAttempt Nat).loginResult = .error e →
      connect_delete { sslResult := .error 7, loginResult := .ok () } = .error e) :=
  ⟨(claim_C7_connect_authenticates
      ({ sslResult := .ok (), loginResult := .ok () } : ConnAttempt Nat)).1,
    (claim_C7_connect_authenticates
      ({ sslResult := .error 7, loginResult := .ok () } : ConnAttempt Nat)).2.1,
    (claim_C7_connect_authenticates
      ({ sslResult := .error 7, loginResult := .ok () } : ConnAttempt Nat)).2.2⟩

/-- Counterexample to claim C7 as stated: with a working handshake and a
failing login, the `imap_count.py` constructor returns normally (the
function is total — no exception escapes) and the session it yields holds
an unauthenticated handle. -/
theorem claim_C7_counterexample :
    connect_count ({ sslResult := .ok (), loginResult := .error 7 } :
        ConnAttempt Nat) =
      { mail := some { authenticated := false } } := by
  rfl

/-! ## Claim C8: sender census

Model of the reporting tail of `list_top_senders` — `imap_delete.py`
lines 127-133 and `imap_count.py` lines 212-217.  The input is the list of
sender addresses collected by the fetch loop (already normalized to lower
case at collection, `email_address.lower()`); `collections.Counter` keeps
one entry per distinct address in first-appearance order, and Python's
`sorted(..., key=count, reverse=True)` is a stable descending sort.
-/

/-- One message's address added to the running frequency table, keyed by
address, first appearance appended at the end (dict/Counter order). -/
def bump : List (String × Nat) → String → List (String × Nat)
  | [], s => [(s, 1)]
  | (t, n) :: rest, s =>
    if t = s then (t, n + 1) :: rest else (t, n) :: bump rest s

/-- collections.Counter over the collected sender list. -/
def counter (l : List String) : List (String × Nat) := l.foldl bump []

/-- Stable descending insertion by count: a later entry goes after every
earlier entry whose count is at least as large. -/
def insertDesc (x : String × Nat) : List (String × Nat) → List (String × Nat)
  | [] => [x]
  | y :: rest => if y.2 < x.2 then x :: y :: rest else y :: insertDesc x rest

/-- Python's `sorted(..., key=lambda item: item[1], reverse=True)`:
a stable descending sort by count. -/
def sortDesc (l : List (String × Nat)) : List (String × Nat) :=
  l.foldl (fun acc x => insertDesc x acc) []

/-- The report of `imap_delete.py` `list_top_senders`: frequency table
filtered to `count >= MINIMUM_COUNT` with `MINIMUM_COUNT = 10`, sorted
descending by count. -/
def list_top_senders_table (senders : List String) : List (String × Nat) :=
  sortDesc ((counter senders).filter (fun p => decide (10 ≤ p.2)))

/-- The report of `imap_count.py` `list_top_senders`: same shape but the
filter is `count > 1`. -/
def sender_stats_table (senders : List String) : List (String × Nat) :=
  sortDesc ((counter senders).filter (fun p => decide (1 < p.2)))

/-- Adjacent counts never increase. -/
def sortedDescB : List (String × Nat) → Bool
  | [] => true
  | [_] => true
  | a :: b :: rest => decide (b.2 ≤ a.2) && sortedDescB (b :: rest)

theorem insertDesc_head (x : String × Nat) (l : List (String × Nat)) :
    (insertDesc x l).head? = some x ∨ (insertDesc x l).head? = l.head? := by
  cases l with
  | nil => left; rfl
  | cons y rest =>
    unfold insertDesc
    by_cases h : y.2 < x.2
    · rw [if_pos h]
      left
      rfl
    · rw [if_neg h]
      right
      rfl

theorem sortedDescB_insertDesc (x : String × Nat) (l : List (String × Nat))
    (h : sortedDescB l = true) : sortedDescB (insertDesc x l) = true := by
  induction l with
  | nil => rfl
  | cons y rest ih =>
    unfold insertDesc
    by_cases hxy : y.2 < x.2
    · rw [if_pos hxy]
      have : decide (y.2 ≤ x.2) = true := by simp; omega
      simp only [sortedDescB, this, Bool.true_and]
      exact h
    · rw [if_neg hxy]
      have hrest : sortedDescB rest = true := by
        cases rest with
        | nil => rfl
        | cons z rest2 =>
          simp only [sortedDescB, Bool.and_eq_true] at h
          exact h.2
      have hins := ih hrest
      cases hh : (insertDesc x rest).head? with
      | none =>
        cases hnil : insertDesc x rest with
        | nil => simp [sortedDescB]
        | cons a t => rw [hnil] at hh; simp at hh
      | some a =>
        have ha : a = x ∨ rest.head? = some a := by
          rcases insertDesc_head x rest with h1 | h1
          · left
            rw [h1] at hh
            exact (Option.some.inj hh).symm
          · right
            rw [← h1, hh]
        cases hnil : insertDesc x rest with
        | nil => simp [sortedDescB]
        | cons b t =>
          have hb : b = a := by
            rw [hnil] at hh
            simpa using hh
          subst hb
          have hba : b.2 ≤ y.2 := by
            rcases ha with ha | ha
            · subst ha
              omega
            · cases rest with
              | nil => simp at ha
              | cons z rest2 =>
                simp only [List.head?_cons, Option.some.injEq] at ha
                subst ha
                simp only [sortedDescB, Bool.and_eq_true, decide_eq_true_eq] at h
                exact h.1
          rw [hnil] at hins
          simp only [sortedDescB, Bool.and_eq_true]
          refine ⟨by simpa using hba, hins⟩

theorem sortedDescB_foldl (l : List (String × Nat)) :
    ∀ acc, sortedDescB acc = true →
      sortedDescB (l.foldl (fun acc x => insertDesc x acc) acc) = true := by
  induction l with
  | nil => intro acc h; exact h
  | cons x rest ih =>
    intro acc h
    exact ih (insertDesc x acc) (sortedDescB_insertDesc x acc h)

theorem sortedDescB_sortDesc (l : List (String × Nat)) :
    sortedDescB (sortDesc l) = true :=
  sortedDescB_foldl l [] rfl

theorem insertDesc_all (p : String × Nat → Bool) (x : String × Nat)
    (l : List (String × Nat)) :
    (insertDesc x l).all p = (p x && l.all p) := by
  induction l with
  | nil => simp [insertDesc]
  | cons y rest ih =>
    unfold insertDesc
    by_cases h : y.2 < x.2
    · rw [if_pos h]
      simp [List.all_cons]
    · rw [if_neg h]
      simp only [List.all_cons, ih]
      cases p x <;> cases p y <;> simp

theorem sortDesc_all (p : String × Nat → Bool) (l : List (String × Nat)) :
    (sortDesc l).all p = l.all p := by
  have haux : ∀ acc, (l.foldl (fun acc x => insertDesc x acc) acc).all p =
      (acc.all p && l.all p) := by
    induction l with
    | nil => intro acc; simp
    | cons x rest ih =>
      intro acc
      simp only [List.foldl_cons, ih (insertDesc x acc), insertDesc_all,
        List.all_cons]
      cases p x <;> cases acc.all p <;> simp
  have := haux []
  simpa [sortDesc] using this

theorem filter_all_self (p : α → Bool) (l : List α) :
    (l.filter p).all p = true := by
  induction l with
  | nil => rfl
  | cons x rest ih =>
    by_cases h : p x = true
    · simp [List.filter_cons, h, ih]
    · simp only [List.filter_cons]
      rw [if_neg (by simp [h])]
      exact ih

/-- The 250-message scenario: 150 from a@x.com, 80 from b@y.com, 20 from
c@z.com, in mailbox order. -/
def scenario250 : List String :=
  List.replicate 150 "a@x.com" ++ List.replicate 80 "b@y.com" ++
    List.replicate 20 "c@z.com"

/-- Amendment of claim C8: the census is a frequency table of the collected
(normalized) sender addresses sorted descending by count; the
minimum-occurrence threshold is 10 in `imap_delete.py` but `count > 1` in
`imap_count.py` (see the counterexample).  On the 250-message scenario both
variants print exactly a@x.com 150, b@y.com 80, c@z.com 20, in that
order. -/
theorem claim_C8_sender_census :
    list_top_senders_table scenario250 =
      [("a@x.com", 150), ("b@y.com", 80), ("c@z.com", 20)] ∧
    sender_stats_table scenario250 =
      [("a@x.com", 150), ("b@y.com", 80), ("c@z.com", 20)] ∧
    (∀ senders, (list_top_senders_table senders).all
      (fun p => decide (10 ≤ p.2)) = true) ∧
    (∀ senders, sortedDescB (list_top_senders_table senders) = true) ∧
    (∀ senders, sortedDescB (sender_stats_table senders) = true) := by
  refine ⟨by decide, by decide, ?_, ?_, ?_⟩
  · intro senders
    rw [list_top_senders_table, sortDesc_all]
    exact filter_all_self _ _
  · intro senders
    exact sortedDescB_sortDesc _
  · intro senders
    exact sortedDescB_sortDesc _

/-- Counterexample to claim C8 as stated: five messages from one sender.
The `imap_count.py` census (filter `count > 1`) reports that sender with
count 5, so its output is not filtered to a minimum-occurrence threshold
of 10. -/
theorem claim_C8_counterexample :
    sender_stats_table (List.replicate 5 "s@t.com") = [("s@t.com", 5)] := by
  decide

/-! ## Claim C6: shutdown flag and session teardown

Sequential model of `list_top_senders` in `imap_count.py`: chunk dispatches
happen in planner order; the shutdown flag is a monotone boolean observed
at each dispatch boundary (`fetch_chunk` line 129 checks it first and
returns at once); `signal_handler` (lines 30-41) fires at the first
flagged boundary and logs out every registered connection; after the loop
the main thread (lines 206-210) logs out every connection unless the flag
is set, in which case the handler has already done so.
-/

/-- Protocol events of the read pipeline's worker sessions. -/
inductive CEv where
  | openConn (w : Nat)
  | fetch (w : Nat) (chunk : List Nat)
  | logout (w : Nat)
deriving DecidableEq

/-- One modelled run: the planned chunks, which worker each dispatch runs
on, and the shutdown flag as observed at each dispatch boundary. -/
structure CountRun where
  chunks : List (List Nat)
  assign : Nat → Nat
  flagAt : Nat → Bool

/-- The shutdown flag is set once and never reset (`threading.Event`). -/
def monoFlag (flagAt : Nat → Bool) : Prop :=
  ∀ i j, i ≤ j → flagAt i = true → flagAt j = true

/-- Protocol-event footprint of `fetch_chunk` (lines 128-157 of
`imap_count.py`): a worker observing the flag set at the dispatch boundary
returns immediately with no protocol traffic; otherwise
`get_thread_connection` opens the worker's session on first use and one
batch FETCH is issued. -/
def fetch_chunk (flag : Bool) (hasConn : Bool) (w : Nat) (c : List Nat) :
    List CEv :=
  if flag then []
  else (if hasConn then [] else [.openConn w]) ++ [.fetch w c]

/-- Result of the dispatch loop: events, open (registered) worker sessions,
and whether the signal handler has fired. -/
structure DOut where
  evs : List CEv
  conns : List Nat
  handlerDone : Bool

/-- The dispatch loop from boundary `i`.  At a flagged boundary the signal
handler (if it has not fired yet) logs out every registered session, and
the dispatch itself is a no-op; at an unflagged boundary the worker's
session is opened on first use and the chunk is fetched. -/
def dispatchLoop (r : CountRun) : Nat → List (List Nat) → List Nat → Bool → DOut
  | _, [], conns, hd => ⟨[], conns, hd⟩
  | i, c :: rest, conns, hd =>
    if r.flagAt i then
      ⟨(if hd then [] else conns.map CEv.logout) ++
          fetch_chunk true (conns.contains (r.assign i)) (r.assign i) c ++
          (dispatchLoop r (i + 1) rest conns true).evs,
        (dispatchLoop r (i + 1) rest conns true).conns,
        (dispatchLoop r (i + 1) rest conns true).handlerDone⟩
    else
      ⟨fetch_chunk false (conns.contains (r.assign i)) (r.assign i) c ++
          (dispatchLoop r (i + 1) rest
            (if conns.contains (r.assign i) then conns
              else conns ++ [r.assign i]) hd).evs,
        (dispatchLoop r (i + 1) rest
          (if conns.contains (r.assign i) then conns
            else conns ++ [r.assign i]) hd).conns,
        (dispatchLoop r (i + 1) rest
          (if conns.contains (r.assign i) then conns
            else conns ++ [r.assign i]) hd).handlerDone⟩

/-- The whole run's trace: the dispatch loop followed by teardown — the
main thread's cleanup when the flag never rose, nothing more when the
handler already logged every session out. -/
def list_top_senders_run (r : CountRun) : List CEv :=
  (dispatchLoop r 0 r.chunks [] false).evs ++
    (if r.flagAt r.chunks.length then
      (if (dispatchLoop r 0 r.chunks [] false).handlerDone then []
        else (dispatchLoop r 0 r.chunks [] false).conns.map CEv.logout)
    else (dispatchLoop r 0 r.chunks [] false).conns.map CEv.logout)

/-- Every session opened in the trace is logged out later in the trace or
in the pending teardown `tail`. -/
def opensCovered : List CEv → List CEv → Prop
  | [], _ => True
  | .openConn w :: rest, tail =>
    (CEv.logout w ∈ rest ∨ CEv.logout w ∈ tail) ∧ opensCovered rest tail
  | _ :: rest, tail => opensCovered rest tail

theorem opensCovered_cons_fetch (w : Nat) (c : List Nat) (rest tail : List CEv) :
    opensCovered (CEv.fetch w c :: rest) tail ↔ opensCovered rest tail := by
  constructor <;> intro h <;> exact h

theorem opensCovered_map_logout (conns : List Nat) (tail : List CEv) :
    opensCovered (conns.map CEv.logout) tail := by
  induction conns with
  | nil => trivial
  | cons w rest ih => exact ih

theorem opensCovered_mono_tail (l : List CEv) :
    ∀ t t', (∀ x, x ∈ t → x ∈ t') → opensCovered l t → opensCovered l t' := by
  induction l with
  | nil => intro t t' _ _; trivial
  | cons e rest ih =>
    intro t t' hsub h
    cases e with
    | openConn w =>
      obtain ⟨h1, h2⟩ := h
      refine ⟨?_, ih t t' hsub h2⟩
      rcases h1 with h1 | h1
      · exact Or.inl h1
      · exact Or.inr (hsub _ h1)
    | fetch w c => exact ih t t' hsub h
    | logout w => exact ih t t' hsub h

theorem opensCovered_append (l1 l2 t : List CEv)
    (h1 : opensCovered l1 (l2 ++ t)) (h2 : opensCovered l2 t) :
    opensCovered (l1 ++ l2) t := by
  induction l1 with
  | nil => exact h2
  | cons e rest ih =>
    cases e with
    | openConn w =>
      obtain ⟨hw, hrest⟩ := h1
      refine ⟨?_, ih hrest⟩
      rcases hw with hw | hw
      · exact Or.inl (List.mem_append_left _ hw)
      · rcases List.mem_append.mp hw with hw | hw
        · exact Or.inl (List.mem_append_right _ hw)
        · exact Or.inr hw
    | fetch w c => exact ih h1
    | logout w => exact ih h1

theorem dispatchLoop_flagged (r : CountRun) (hm : monoFlag r.flagAt) :
    ∀ cs i conns, r.flagAt i = true →
      dispatchLoop r i cs conns true = ⟨[], conns, true⟩ := by
  intro cs
  induction cs with
  | nil => intro i conns _; rfl
  | cons c rest ih =>
    intro i conns hf
    unfold dispatchLoop
    rw [if_pos hf, ih (i + 1) conns (hm i (i + 1) (by omega) hf)]
    simp [fetch_chunk]

theorem dispatchLoop_main (r : CountRun) (hm : monoFlag r.flagAt) :
    ∀ cs i conns,
      (∀ w, w ∈ conns → w ∈ (dispatchLoop r i cs conns false).conns) ∧
      ((dispatchLoop r i cs conns false).handlerDone = true →
        (∀ w, w ∈ conns → CEv.logout w ∈ (dispatchLoop r i cs conns false).evs) ∧
        opensCovered (dispatchLoop r i cs conns false).evs []) ∧
      ((dispatchLoop r i cs conns false).handlerDone = false →
        opensCovered (dispatchLoop r i cs conns false).evs
          ((dispatchLoop r i cs conns false).conns.map CEv.logout)) := by
  intro cs
  induction cs with
  | nil =>
    intro i conns
    refine ⟨fun w hw => hw, ?_, ?_⟩
    · intro h
      simp [dispatchLoop] at h
    · intro _
      trivial
  | cons c rest ih =>
    intro i conns
    by_cases hf : r.flagAt i = true
    · have hnext : r.flagAt (i + 1) = true := hm i (i + 1) (by omega) hf
      have hall := dispatchLoop_flagged r hm rest (i + 1) conns hnext
      have hres : dispatchLoop r i (c :: rest) conns false =
          ⟨conns.map CEv.logout, conns, true⟩ := by
        unfold dispatchLoop
        rw [if_pos hf, hall]
        simp [fetch_chunk]
      rw [hres]
      refine ⟨fun w hw => hw, ?_, ?_⟩
      · intro _
        exact ⟨fun w hw => List.mem_map_of_mem _ hw,
          opensCovered_map_logout conns []⟩
      · intro h
        simp at h
    · by_cases hc : conns.contains (r.assign i) = true
      · have hmem : r.assign i ∈ conns := by simpa using hc
        have hres : dispatchLoop r i (c :: rest) conns false =
            ⟨CEv.fetch (r.assign i) c ::
                (dispatchLoop r (i + 1) rest conns false).evs,
              (dispatchLoop r (i + 1) rest conns false).conns,
              (dispatchLoop r (i + 1) rest conns false).handlerDone⟩ := by
          simp only [dispatchLoop]
          rw [if_neg hf]
          simp [fetch_chunk, hc, hmem]
        rw [hres]
        obtain ⟨iha, ihb, ihc⟩ := ih (i + 1) conns
        refine ⟨iha, ?_, ?_⟩
        · intro hhd
          obtain ⟨ihb1, ihb2⟩ := ihb hhd
          exact ⟨fun w hw => List.mem_cons_of_mem _ (ihb1 w hw),
            (opensCovered_cons_fetch _ _ _ _).mpr ihb2⟩
        · intro hhd
          exact (opensCovered_cons_fetch _ _ _ _).mpr (ihc hhd)
      · have hmem : r.assign i ∉ conns := by simpa using hc
        have hres : dispatchLoop r i (c :: rest) conns false =
            ⟨CEv.openConn (r.assign i) :: CEv.fetch (r.assign i) c ::
                (dispatchLoop r (i + 1) rest (conns ++ [r.assign i]) false).evs,
              (dispatchLoop r (i + 1) rest (conns ++ [r.assign i]) false).conns,
              (dispatchLoop r (i + 1) rest (conns ++ [r.assign i]) false).handlerDone⟩ := by
          simp only [dispatchLoop]
          rw [if_neg hf]
          simp [fetch_chunk, hc, hmem]
        rw [hres]
        obtain ⟨iha, ihb, ihc⟩ := ih (i + 1) (conns ++ [r.assign i])
        have hwmem : r.assign i ∈ conns ++ [r.assign i] := by simp
        refine ⟨?_, ?_, ?_⟩
        · intro w hw
          exact iha w (List.mem_append_left _ hw)
        · intro hhd
          obtain ⟨ihb1, ihb2⟩ := ihb hhd
          refine ⟨?_, ?_, ?_⟩
          · intro w hw
            exact List.mem_cons_of_mem _
              (List.mem_cons_of_mem _ (ihb1 w (List.mem_append_left _ hw)))
          · exact Or.inl (List.mem_cons_of_mem _ (ihb1 (r.assign i) hwmem))
          · exact (opensCovered_cons_fetch _ _ _ _).mpr ihb2
        · intro hhd
          refine ⟨?_, ?_⟩
          · exact Or.inr (List.mem_map_of_mem _ (iha _ hwmem))
          · exact (opensCovered_cons_fetch _ _ _ _).mpr (ihc hhd)

/-- Claim C6: under a monotone (set-once) shutdown flag, a worker observing
the flag at the dispatch boundary returns without issuing any protocol
event, and in the whole sequential run every session opened is logged out
later in the trace — by the signal handler when the flag rose, by the main
thread's cleanup otherwise. -/
theorem claim_C6_shutdown (r : CountRun) (hm : monoFlag r.flagAt) :
    opensCovered (list_top_senders_run r) [] ∧
    (∀ (hasConn : Bool) (w : Nat) (c : List Nat),
      fetch_chunk true hasConn w c = []) := by
  refine ⟨?_, fun _ _ _ => rfl⟩
  obtain ⟨ha, hb, hc⟩ := dispatchLoop_main r hm r.chunks 0 []
  unfold list_top_senders_run
  by_cases hhd : (dispatchLoop r 0 r.chunks [] false).handlerDone = true
  · obtain ⟨_, hcov⟩ := hb hhd
    apply opensCovered_append
    · exact opensCovered_mono_tail _ [] _
        (fun x hx => absurd hx (List.not_mem_nil x)) hcov
    · by_cases hflag : r.flagAt r.chunks.length = true
      · rw [if_pos hflag, hhd]
        exact trivial
      · rw [if_neg hflag]
        exact opensCovered_map_logout _ []
  · have hhd' : (dispatchLoop r 0 r.chunks [] false).handlerDone = false := by
      simpa using hhd
    have hcov := hc hhd'
    have hfin : (if r.flagAt r.chunks.length then
        (if (dispatchLoop r 0 r.chunks [] false).handlerDone then []
          else (dispatchLoop r 0 r.chunks [] false).conns.map CEv.logout)
      else (dispatchLoop r 0 r.chunks [] false).conns.map CEv.logout) =
        (dispatchLoop r 0 r.chunks [] false).conns.map CEv.logout := by
      rw [hhd']
      split
      · simp
      · rfl
    rw [hfin]
    apply opensCovered_append
    · exact opensCovered_mono_tail _ _ _
        (fun x hx => List.mem_append_left _ hx) hcov
    · exact opensCovered_map_logout _ []

/-- A three-chunk run on two workers whose shutdown flag rises at the third
dispatch boundary. -/
def run0 : CountRun where
  chunks := [[1], [2], [3]]
  assign := fun i => i % 2
  flagAt := fun i => decide (2 ≤ i)

/-- Witness for C6 at a concrete run. -/
theorem claim_C6_shutdown_witness :
    opensCovered (list_top_senders_run run0) [] ∧
    (∀ (hasConn : Bool) (w : Nat) (c : List Nat),
      fetch_chunk true hasConn w c = []) :=
  claim_C6_shutdown run0 (fun i j hij hi => by
    simp only [run0, decide_eq_true_eq] at hi ⊢
    omega)
